import Mathlib

/-!
Shallow embedding of the `todo-list` repository layer
(`src/repositories/memory_repository.py`, together with the data model in
`src/models/project.py`, `src/models/task.py` and the error taxonomy in
`src/exceptions/todo_exceptions.py`).

Python objects are mutated in place; here every operation takes the
repository state and returns the (possibly unchanged) new state together
with an `Except` result mirroring `return` vs `raise`.  The Python `dict`
holding projects is modelled as an insertion-ordered association list
(Python dicts preserve insertion order, and assignment of a fresh key
appends).  `datetime.strptime(s, "%Y-%m-%d")` is modelled by `parseDate`,
following CPython's `_strptime` regex fragments for `%Y` (four digits),
`%m` (`1[0-2]|0[1-9]|[1-9]`) and `%d` (`3[01]|[12]\d|0[1-9]|[1-9]`),
the "unconverted data remains" check, and `date`'s range validation
(year at least 1, day at most the month length with leap years).  Each
`\d` matches any Unicode decimal digit (category Nd, the `ndZeros`
blocks) and `int()` converts it by decimal value, while the literal
character classes such as `[0-2]` are ASCII-only, exactly as in CPython.
-/

namespace TodoList

/-- Constant `MAX_TASK_TITLE = 30` from `memory_repository.py`. -/
def MAX_TASK_TITLE : Nat := 30

/-- Constant `MAX_TASK_DESC = 150` from `memory_repository.py`. -/
def MAX_TASK_DESC : Nat := 150

/-- Constant `VALID_STATUSES = ["todo", "doing", "done"]` from `memory_repository.py`.
Statuses are strings at runtime in Python, so they are strings here. -/
def VALID_STATUSES : List String := ["todo", "doing", "done"]

/-- A calendar date as produced by `datetime.strptime(...).date()`. -/
structure PDate where
  year : Nat
  month : Nat
  day : Nat
deriving DecidableEq, Repr

/-- The `Task` dataclass from `src/models/task.py`. -/
structure Task where
  id : Nat
  title : String
  description : String
  status : String
  deadline : Option PDate
deriving DecidableEq, Repr

/-- The `Project` dataclass from `src/models/project.py`. -/
structure Project where
  id : Nat
  name : String
  description : String
  tasks : List Task
deriving DecidableEq, Repr

/-- The exception taxonomy of `src/exceptions/todo_exceptions.py`
(the classes deriving from `TodoError`). -/
inductive TodoError where
  | validationError (msg : String)
  | projectNotFoundError (msg : String)
  | taskNotFoundError (msg : String)
  | limitExceededError (msg : String)
deriving DecidableEq, Repr

/-- The mutable state of `InMemoryRepository`: the `projects` dict
(insertion-ordered association list keyed by project id) and the two
id counters, both starting at 1. -/
structure InMemoryRepository where
  projects : List (Nat × Project)
  next_project_id : Nat
  next_task_id : Nat
deriving DecidableEq, Repr

/-- State built by `InMemoryRepository.__init__`. -/
def initRepo : InMemoryRepository := ⟨[], 1, 1⟩

/-! ### Python dict operations on the insertion-ordered association list -/

/-- Python `self.projects.get(k)`. -/
def dictGet (l : List (Nat × Project)) (k : Nat) : Option Project :=
  match l with
  | [] => none
  | e :: rest => if e.1 = k then some e.2 else dictGet rest k

/-- Python `self.projects[k] = v`: replace in place if the key exists, else append. -/
def dictSet (l : List (Nat × Project)) (k : Nat) (v : Project) : List (Nat × Project) :=
  match l with
  | [] => [(k, v)]
  | e :: rest => if e.1 = k then (k, v) :: rest else e :: dictSet rest k v

/-- Python `del self.projects[k]`: remove the entry with the given key. -/
def dictDel (l : List (Nat × Project)) (k : Nat) : List (Nat × Project) :=
  match l with
  | [] => []
  | e :: rest => if e.1 = k then rest else e :: dictDel rest k

/-- In-place mutation of the project stored under key `k`
(Python mutates the object held in the dict). -/
def dictUpdate (l : List (Nat × Project)) (k : Nat) (f : Project → Project) :
    List (Nat × Project) :=
  l.map (fun e => if e.1 = k then (e.1, f e.2) else e)

/-! ### `datetime.strptime(deadline, "%Y-%m-%d")` -/

/-- Numeric value of an ASCII digit. -/
def digitVal (c : Char) : Nat := c.toNat - '0'.toNat

/-- Code points of the zero digit of every Unicode decimal-digit block
(category Nd): each block is ten consecutive code points with decimal values
0 through 9.  CPython's `re` matches `\d` (for `str` patterns) exactly on
these characters, and `int()` converts them by decimal value, so this is the
digit set of `strptime`'s `\d` fragments. -/
def ndZeros : List Nat :=
  [0x30, 0x660, 0x6f0, 0x7c0, 0x966, 0x9e6, 0xa66, 0xae6, 0xb66, 0xbe6,
   0xc66, 0xce6, 0xd66, 0xde6, 0xe50, 0xed0, 0xf20, 0x1040, 0x1090, 0x17e0,
   0x1810, 0x1946, 0x19d0, 0x1a80, 0x1a90, 0x1b50, 0x1bb0, 0x1c40, 0x1c50,
   0xa620, 0xa8d0, 0xa900, 0xa9d0, 0xa9f0, 0xaa50, 0xabf0, 0xff10, 0x104a0,
   0x10d30, 0x11066, 0x110f0, 0x11136, 0x111d0, 0x112f0, 0x11450, 0x114d0,
   0x11650, 0x116c0, 0x11730, 0x118e0, 0x11950, 0x11c50, 0x11d50, 0x11da0,
   0x16a60, 0x16ac0, 0x16b50, 0x1d7ce, 0x1d7d8, 0x1d7e2, 0x1d7ec, 0x1d7f6,
   0x1e140, 0x1e2f0, 0x1e950, 0x1fbf0]

/-- Whether a character is a Unicode decimal digit (category Nd): the
characters matched by CPython's `\d` and accepted by `int()`. -/
def isNdDigit (c : Char) : Bool :=
  ndZeros.any (fun z => z ≤ c.toNat && c.toNat < z + 10)

/-- Decimal value of a Unicode decimal digit (offset in its Nd block). -/
def ndVal (c : Char) : Nat :=
  match ndZeros.find? (fun z => z ≤ c.toNat && c.toNat < z + 10) with
  | some z => c.toNat - z
  | none => 0

/-- Leap-year rule used by `datetime.date`. -/
def isLeapYear (y : Nat) : Bool := y % 4 == 0 && (y % 100 != 0 || y % 400 == 0)

/-- Number of days in a month, as `datetime.date` validates them. -/
def daysInMonth (y m : Nat) : Nat :=
  if m = 2 then (if isLeapYear y then 29 else 28)
  else if m = 4 ∨ m = 6 ∨ m = 9 ∨ m = 11 then 30
  else 31

/-- Month field `%m`: ordered alternatives `1[0-2]`, `0[1-9]`, `[1-9]`.
Returns the month value and the unconsumed characters. -/
def parseMonth : List Char → Option (Nat × List Char)
  | [] => none
  | c1 :: rest =>
    match rest with
    | c2 :: rest2 =>
      if c1 = '1' ∧ ('0' ≤ c2 ∧ c2 ≤ '2') then some (10 + digitVal c2, rest2)
      else if c1 = '0' ∧ ('1' ≤ c2 ∧ c2 ≤ '9') then some (digitVal c2, rest2)
      else if '1' ≤ c1 ∧ c1 ≤ '9' then some (digitVal c1, rest)
      else none
    | [] =>
      if '1' ≤ c1 ∧ c1 ≤ '9' then some (digitVal c1, []) else none

/-- Day field `%d`: ordered alternatives `3[01]`, `[12]\d`, `0[1-9]`, `[1-9]`.
The literal classes are ASCII, but the `\d` of the `[12]\d` alternative
matches any Unicode decimal digit (category Nd), as CPython's `re` does. -/
def parseDay : List Char → Option (Nat × List Char)
  | [] => none
  | c1 :: rest =>
    match rest with
    | c2 :: rest2 =>
      if c1 = '3' ∧ (c2 = '0' ∨ c2 = '1') then some (30 + digitVal c2, rest2)
      else if ('1' ≤ c1 ∧ c1 ≤ '2') ∧ isNdDigit c2 = true then
        some (digitVal c1 * 10 + ndVal c2, rest2)
      else if c1 = '0' ∧ ('1' ≤ c2 ∧ c2 ≤ '9') then some (digitVal c2, rest2)
      else if '1' ≤ c1 ∧ c1 ≤ '9' then some (digitVal c1, rest)
      else none
    | [] =>
      if '1' ≤ c1 ∧ c1 ≤ '9' then some (digitVal c1, []) else none

/-- Model of `datetime.strptime(s, "%Y-%m-%d").date()`: `none` when Python raises
`ValueError` (no regex match, unconverted data, failing `int()` conversion,
or date out of range).  The four `\d` of `%Y` match any Unicode decimal
digit; a digit-property character outside Nd (such as the superscript two)
is rejected by `\d` here, so requiring Nd is exact. -/
def parseDate (s : String) : Option PDate :=
  match s.data with
  | y1 :: y2 :: y3 :: y4 :: '-' :: rest =>
    if isNdDigit y1 ∧ isNdDigit y2 ∧ isNdDigit y3 ∧ isNdDigit y4 then
      let y := ndVal y1 * 1000 + ndVal y2 * 100 + ndVal y3 * 10 + ndVal y4
      match parseMonth rest with
      | some (m, rest2) =>
        match rest2 with
        | '-' :: rest3 =>
          match parseDay rest3 with
          | some (d, []) =>
            if 1 ≤ y ∧ d ≤ daysInMonth y m then some ⟨y, m, d⟩ else none
          | _ => none
        | _ => none
      | none => none
    else none
  | _ => none

/-- Python truthiness of the `deadline: Optional[str]` argument:
`None` and the empty string are falsy. -/
def deadlineTruthy : Option String → Bool
  | none => false
  | some s => !(s == "")

/-- The `task_deadline` computation in `add_task` / `edit_task`:
skip parsing when the argument is falsy, otherwise parse and turn a
`ValueError` into a `ValidationError`. -/
def computeDeadline (deadline : Option String) : Except TodoError (Option PDate) :=
  match deadline with
  | none => .ok none
  | some d =>
    if d = "" then .ok none
    else
      match parseDate d with
      | some dt => .ok (some dt)
      | none => .error (.validationError "Deadline must be in YYYY-MM-DD format.")

/-! ### Repository operations -/

/-- Embedding of `InMemoryRepository.add_project`.  `maxProjects` models the module-level
`MAX_NUMBER_OF_PROJECT = int(os.getenv("MAX_NUMBER_OF_PROJECT", 20))`. -/
def add_project (maxProjects : Nat) (repo : InMemoryRepository)
    (name description : String) : Except TodoError Project × InMemoryRepository :=
  if repo.projects.length ≥ maxProjects then
    (.error (.validationError "Maximum number of projects reached."), repo)
  else if repo.projects.any (fun e => e.2.name == name) then
    (.error (.validationError ("Project name '" ++ name ++ "' already exists.")), repo)
  else if name.length > 30 then
    (.error (.validationError "Project name must be ≤ 30 characters."), repo)
  else if description.length > 150 then
    (.error (.validationError "Project description must be ≤ 150 characters."), repo)
  else
    let project : Project := ⟨repo.next_project_id, name, description, []⟩
    (.ok project,
      { repo with
        projects := dictSet repo.projects repo.next_project_id project
        next_project_id := repo.next_project_id + 1 })

/-- Embedding of `InMemoryRepository.edit_project`. -/
def edit_project (repo : InMemoryRepository) (project_id : Nat)
    (name description : String) : Except TodoError Project × InMemoryRepository :=
  match dictGet repo.projects project_id with
  | none => (.error (.validationError "Project not found."), repo)
  | some p =>
    if name.length > 30 then
      (.error (.validationError "Project name must be ≤ 30 characters."), repo)
    else if description.length > 150 then
      (.error (.validationError "Project description must be ≤ 150 characters."), repo)
    else if repo.projects.any (fun e => e.2.name == name && e.2.id != project_id) then
      (.error (.validationError ("Project name '" ++ name ++ "' already exists.")), repo)
    else
      (.ok { p with name := name, description := description },
        { repo with
          projects := dictUpdate repo.projects project_id
            (fun q => { q with name := name, description := description }) })

/-- Embedding of `InMemoryRepository.delete_project`. -/
def delete_project (repo : InMemoryRepository) (project_id : Nat) :
    Except TodoError Unit × InMemoryRepository :=
  if (dictGet repo.projects project_id).isNone then
    (.error (.validationError "Project not found."), repo)
  else
    (.ok (), { repo with projects := dictDel repo.projects project_id })

/-- Stable insertion of a project into a list sorted ascending by id. -/
def insertByIdLe (p : Project) : List Project → List Project
  | [] => [p]
  | q :: rest => if p.id ≤ q.id then p :: q :: rest else q :: insertByIdLe p rest

/-- Python `sorted(values, key=lambda p: p.id)`: stable insertion sort by id. -/
def sortByIdLe : List Project → List Project
  | [] => []
  | p :: rest => insertByIdLe p (sortByIdLe rest)

/-- Embedding of `InMemoryRepository.list_projects` (also `list_all_projects`):
all stored projects sorted ascending by id.  Total: never fails. -/
def list_projects (repo : InMemoryRepository) : List Project :=
  sortByIdLe (repo.projects.map (fun e => e.2))

/-- Embedding of `InMemoryRepository.add_task`.  `maxTasks` models
`int(os.getenv("MAX_NUMBER_OF_TASK", 200))` read at call time. -/
def add_task (maxTasks : Nat) (repo : InMemoryRepository) (project_id : Nat)
    (title description status : String) (deadline : Option String) :
    Except TodoError Task × InMemoryRepository :=
  match dictGet repo.projects project_id with
  | none => (.error (.validationError "Project not found."), repo)
  | some project =>
    if project.tasks.length ≥ maxTasks then
      (.error (.validationError "Maximum number of tasks reached for this project."), repo)
    else if title.length > MAX_TASK_TITLE then
      (.error (.validationError "Task title must be ≤ 30 characters."), repo)
    else if description.length > MAX_TASK_DESC then
      (.error (.validationError "Task description must be ≤ 150 characters."), repo)
    else if !VALID_STATUSES.contains status then
      (.error (.validationError ("Invalid status: " ++ status)), repo)
    else
      match computeDeadline deadline with
      | .error e => (.error e, repo)
      | .ok task_deadline =>
        let task : Task := ⟨repo.next_task_id, title, description, status, task_deadline⟩
        (.ok task,
          { repo with
            next_task_id := repo.next_task_id + 1
            projects := dictUpdate repo.projects project_id
              (fun q => { q with tasks := q.tasks ++ [task] }) })

/-- First task of the list whose id matches:
`next((t for t in project.tasks if t.id == task_id), None)`. -/
def findTask (ts : List Task) (task_id : Nat) : Option Task :=
  match ts with
  | [] => none
  | t :: rest => if t.id = task_id then some t else findTask rest task_id

/-- In-place mutation of the first task whose id matches. -/
def updateFirstTask (ts : List Task) (task_id : Nat) (f : Task → Task) : List Task :=
  match ts with
  | [] => []
  | t :: rest => if t.id = task_id then f t :: rest else t :: updateFirstTask rest task_id f

/-- Python `project.tasks.remove(task)` after finding the first task with the id:
removes exactly the first task whose id matches. -/
def removeFirstTask (ts : List Task) (task_id : Nat) : List Task :=
  match ts with
  | [] => []
  | t :: rest => if t.id = task_id then rest else t :: removeFirstTask rest task_id

/-- Embedding of `InMemoryRepository.edit_task`: full replace of the four mutable fields. -/
def edit_task (repo : InMemoryRepository) (project_id task_id : Nat)
    (title description status : String) (deadline : Option String) :
    Except TodoError Task × InMemoryRepository :=
  match dictGet repo.projects project_id with
  | none => (.error (.validationError "Project not found."), repo)
  | some project =>
    match findTask project.tasks task_id with
    | none => (.error (.validationError "Task not found."), repo)
    | some task =>
      if title.length > MAX_TASK_TITLE then
        (.error (.validationError "Task title must be ≤ 30 characters."), repo)
      else if description.length > MAX_TASK_DESC then
        (.error (.validationError "Task description must be ≤ 150 characters."), repo)
      else if !VALID_STATUSES.contains status then
        (.error (.validationError ("Invalid status: " ++ status)), repo)
      else
        match computeDeadline deadline with
        | .error e => (.error e, repo)
        | .ok task_deadline =>
          let task' : Task :=
            { task with
              title := title, description := description
              status := status, deadline := task_deadline }
          (.ok task',
            { repo with
              projects := dictUpdate repo.projects project_id
                (fun q =>
                  { q with
                    tasks := updateFirstTask q.tasks task_id
                      (fun t =>
                        { t with
                          title := title, description := description
                          status := status, deadline := task_deadline }) }) })

/-- Embedding of `InMemoryRepository.delete_task`. -/
def delete_task (repo : InMemoryRepository) (project_id task_id : Nat) :
    Except TodoError Unit × InMemoryRepository :=
  match dictGet repo.projects project_id with
  | none => (.error (.validationError "Project not found."), repo)
  | some project =>
    match findTask project.tasks task_id with
    | none => (.error (.validationError "Task not found."), repo)
    | some _ =>
      (.ok (),
        { repo with
          projects := dictUpdate repo.projects project_id
            (fun q => { q with tasks := removeFirstTask q.tasks task_id }) })

/-- Embedding of `InMemoryRepository.change_task_status`: mutate only the status field. -/
def change_task_status (repo : InMemoryRepository) (project_id task_id : Nat)
    (status : String) : Except TodoError Task × InMemoryRepository :=
  match dictGet repo.projects project_id with
  | none => (.error (.validationError "Project not found."), repo)
  | some project =>
    match findTask project.tasks task_id with
    | none => (.error (.validationError "Task not found."), repo)
    | some task =>
      if !VALID_STATUSES.contains status then
        (.error (.validationError ("Invalid status: " ++ status)), repo)
      else
        (.ok { task with status := status },
          { repo with
            projects := dictUpdate repo.projects project_id
              (fun q =>
                { q with
                  tasks := updateFirstTask q.tasks task_id
                    (fun t => { t with status := status }) }) })

/-- Embedding of `InMemoryRepository.list_tasks`: raises when the project is missing,
otherwise returns the project's task list. -/
def list_tasks (repo : InMemoryRepository) (project_id : Nat) :
    Except TodoError (List Task) :=
  match dictGet repo.projects project_id with
  | none => .error (.validationError "Project not found.")
  | some project => .ok project.tasks

/-! ### Operation sequences and reachable states -/

/-- One state-mutating call of the repository's public interface
(`list_projects` and `list_tasks` do not change state). -/
inductive Op where
  | addProject (name description : String)
  | editProject (pid : Nat) (name description : String)
  | deleteProject (pid : Nat)
  | addTask (pid : Nat) (title description status : String) (deadline : Option String)
  | editTask (pid tid : Nat) (title description status : String) (deadline : Option String)
  | deleteTask (pid tid : Nat)
  | changeTaskStatus (pid tid : Nat) (status : String)

/-- The state after one call (Python mutates `self`; errors leave it as is). -/
def applyOp (maxP maxT : Nat) (repo : InMemoryRepository) : Op → InMemoryRepository
  | .addProject n d => (add_project maxP repo n d).2
  | .editProject pid n d => (edit_project repo pid n d).2
  | .deleteProject pid => (delete_project repo pid).2
  | .addTask pid t d s dl => (add_task maxT repo pid t d s dl).2
  | .editTask pid tid t d s dl => (edit_task repo pid tid t d s dl).2
  | .deleteTask pid tid => (delete_task repo pid tid).2
  | .changeTaskStatus pid tid s => (change_task_status repo pid tid s).2

/-- Run a sequence of calls from a given state. -/
def runOpsFrom (maxP maxT : Nat) (repo : InMemoryRepository) (ops : List Op) :
    InMemoryRepository :=
  ops.foldl (applyOp maxP maxT) repo

/-- Run a sequence of calls from the freshly constructed repository. -/
def runOps (maxP maxT : Nat) (ops : List Op) : InMemoryRepository :=
  runOpsFrom maxP maxT initRepo ops

/-- A state is reachable when some call sequence produces it from `__init__`. -/
def Reachable (maxP maxT : Nat) (repo : InMemoryRepository) : Prop :=
  ∃ ops, runOps maxP maxT ops = repo

/-- All task ids stored anywhere in the repository, in storage order. -/
def allTaskIds : List (Nat × Project) → List Nat
  | [] => []
  | e :: rest => e.2.tasks.map Task.id ++ allTaskIds rest

/-- Structural invariant of the store: every dict key equals the stored
project's id field; keys are strictly increasing (so unique); both counters
dominate every id they have handed out; project names are pairwise distinct;
task ids are globally pairwise distinct. -/
def Inv (repo : InMemoryRepository) : Prop :=
  (∀ e ∈ repo.projects, e.2.id = e.1) ∧
  (∀ e ∈ repo.projects, e.1 < repo.next_project_id) ∧
  (∀ e ∈ repo.projects, ∀ t ∈ e.2.tasks, t.id < repo.next_task_id) ∧
  (repo.projects.map Prod.fst).Pairwise (· < ·) ∧
  (repo.projects.map (fun e => e.2.name)).Nodup ∧
  (allTaskIds repo.projects).Nodup

instance (repo : InMemoryRepository) : Decidable (Inv repo) := by
  unfold Inv; infer_instance

/-- Small concrete state for instantiating theorems:
one project "P" with id 1 and no tasks; counters 2 and 1. -/
def repoP : InMemoryRepository := ⟨[(1, ⟨1, "P", "", []⟩)], 2, 1⟩

/-- Small concrete state for instantiating theorems:
one project "P" with id 1 holding one task with id 1; counters 2 and 2. -/
def repoPT : InMemoryRepository :=
  ⟨[(1, ⟨1, "P", "", [⟨1, "T", "D", "todo", none⟩]⟩)], 2, 2⟩

/-! ### Lemmas about the dict and task-list helpers -/

theorem mem_of_dictGet {l : List (Nat × Project)} {k : Nat} {p : Project}
    (h : dictGet l k = some p) : (k, p) ∈ l := by
  induction l with
  | nil => simp [dictGet] at h
  | cons e rest ih =>
    rw [dictGet] at h
    by_cases hk : e.1 = k
    · rw [if_pos hk] at h
      injection h with h'
      subst h'
      have he : e = (k, e.2) := by
        cases e with
        | mk a b => simp at hk; simp [hk]
      rw [← he]
      exact List.mem_cons_self e rest
    · rw [if_neg hk] at h
      exact List.mem_cons_of_mem _ (ih h)

theorem dictGet_eq_none_iff {l : List (Nat × Project)} {k : Nat} :
    dictGet l k = none ↔ ∀ e ∈ l, e.1 ≠ k := by
  induction l with
  | nil => simp [dictGet]
  | cons e rest ih =>
    rw [dictGet]
    by_cases hk : e.1 = k
    · simp [hk]
    · simp [hk, ih]

theorem dictSet_of_fresh {l : List (Nat × Project)} {k : Nat} {v : Project}
    (h : ∀ e ∈ l, e.1 ≠ k) : dictSet l k v = l ++ [(k, v)] := by
  induction l with
  | nil => rfl
  | cons e rest ih =>
    rw [dictSet, if_neg (h e (List.mem_cons_self e rest)), ih]
    · rfl
    · exact fun e' he' => h e' (List.mem_cons_of_mem _ he')

theorem dictDel_sublist (l : List (Nat × Project)) (k : Nat) :
    (dictDel l k).Sublist l := by
  induction l with
  | nil => exact List.Sublist.refl []
  | cons e rest ih =>
    rw [dictDel]
    by_cases hk : e.1 = k
    · rw [if_pos hk]; exact List.sublist_cons_self e rest
    · rw [if_neg hk]; exact List.Sublist.cons₂ e ih

theorem dictUpdate_map_fst (l : List (Nat × Project)) (k : Nat) (f : Project → Project) :
    (dictUpdate l k f).map Prod.fst = l.map Prod.fst := by
  induction l with
  | nil => rfl
  | cons e rest ih =>
    rw [dictUpdate] at ih ⊢
    by_cases hk : e.1 = k
    · simp [hk, ih]
    · simp [hk, ih]

theorem dictUpdate_map_name {f : Project → Project} (hf : ∀ p, (f p).name = p.name)
    (l : List (Nat × Project)) (k : Nat) :
    (dictUpdate l k f).map (fun e => e.2.name) = l.map (fun e => e.2.name) := by
  induction l with
  | nil => rfl
  | cons e rest ih =>
    rw [dictUpdate] at ih ⊢
    by_cases hk : e.1 = k
    · simp [hk, ih, hf]
    · simp [hk, ih]

theorem dictUpdate_of_no_key {l : List (Nat × Project)} {k : Nat} {f : Project → Project}
    (h : ∀ e ∈ l, e.1 ≠ k) : dictUpdate l k f = l := by
  induction l with
  | nil => rfl
  | cons e rest ih =>
    rw [dictUpdate]
    simp only [List.map_cons, if_neg (h e (List.mem_cons_self e rest))]
    have := ih (fun e' he' => h e' (List.mem_cons_of_mem _ he'))
    rw [dictUpdate] at this
    rw [this]

theorem allTaskIds_append (l₁ l₂ : List (Nat × Project)) :
    allTaskIds (l₁ ++ l₂) = allTaskIds l₁ ++ allTaskIds l₂ := by
  induction l₁ with
  | nil => rfl
  | cons e rest ih => simp [allTaskIds, ih]

theorem mem_allTaskIds {x : Nat} {l : List (Nat × Project)} :
    x ∈ allTaskIds l ↔ ∃ e ∈ l, ∃ t ∈ e.2.tasks, t.id = x := by
  induction l with
  | nil => simp [allTaskIds]
  | cons e rest ih =>
    simp only [allTaskIds, List.mem_append, List.mem_map, ih, List.mem_cons]
    constructor
    · rintro (⟨t, ht, rfl⟩ | ⟨e', he', t, ht, rfl⟩)
      · exact ⟨e, Or.inl rfl, t, ht, rfl⟩
      · exact ⟨e', Or.inr he', t, ht, rfl⟩
    · rintro ⟨e', (rfl | he'), t, ht, rfl⟩
      · exact Or.inl ⟨t, ht, rfl⟩
      · exact Or.inr ⟨e', he', t, ht, rfl⟩

theorem allTaskIds_dictUpdate_eq {f : Project → Project}
    (hf : ∀ p, (f p).tasks.map Task.id = p.tasks.map Task.id)
    (l : List (Nat × Project)) (k : Nat) :
    allTaskIds (dictUpdate l k f) = allTaskIds l := by
  induction l with
  | nil => rfl
  | cons e rest ih =>
    rw [dictUpdate] at ih ⊢
    by_cases hk : e.1 = k
    · simp [hk, allTaskIds, ih, hf]
    · simp [hk, allTaskIds, ih]

theorem allTaskIds_dictUpdate_sublist {f : Project → Project}
    (hf : ∀ p, ((f p).tasks.map Task.id).Sublist (p.tasks.map Task.id))
    (l : List (Nat × Project)) (k : Nat) :
    (allTaskIds (dictUpdate l k f)).Sublist (allTaskIds l) := by
  induction l with
  | nil => exact List.Sublist.refl _
  | cons e rest ih =>
    rw [dictUpdate] at ih ⊢
    by_cases hk : e.1 = k
    · simp only [hk, List.map_cons, if_pos rfl, allTaskIds]
      exact List.Sublist.append (hf e.2) ih
    · simp only [List.map_cons, if_neg hk, allTaskIds]
      exact List.Sublist.append (List.Sublist.refl _) ih

theorem updateFirstTask_map_id {g : Task → Task} (hg : ∀ t, (g t).id = t.id)
    (ts : List Task) (tid : Nat) :
    (updateFirstTask ts tid g).map Task.id = ts.map Task.id := by
  induction ts with
  | nil => rfl
  | cons t rest ih =>
    rw [updateFirstTask]
    by_cases ht : t.id = tid
    · simp [ht, hg]
    · simp [ht, ih]

theorem removeFirstTask_sublist (ts : List Task) (tid : Nat) :
    (removeFirstTask ts tid).Sublist ts := by
  induction ts with
  | nil => exact List.Sublist.refl []
  | cons t rest ih =>
    rw [removeFirstTask]
    by_cases ht : t.id = tid
    · rw [if_pos ht]; exact List.sublist_cons_self t rest
    · rw [if_neg ht]; exact List.Sublist.cons₂ t ih

theorem findTask_decomp {ts : List Task} {tid : Nat} {t : Task}
    (h : findTask ts tid = some t) :
    ∃ t₁ t₂, ts = t₁ ++ t :: t₂ ∧ (∀ u ∈ t₁, u.id ≠ tid) ∧ t.id = tid := by
  induction ts with
  | nil => simp [findTask] at h
  | cons u rest ih =>
    rw [findTask] at h
    by_cases hu : u.id = tid
    · rw [if_pos hu] at h
      injection h with h'
      subst h'
      exact ⟨[], rest, rfl, by simp, hu⟩
    · rw [if_neg hu] at h
      obtain ⟨t₁, t₂, hts, h₁, hid⟩ := ih h
      refine ⟨u :: t₁, t₂, by rw [hts]; rfl, ?_, hid⟩
      intro v hv
      rcases List.mem_cons.mp hv with rfl | hv'
      · exact hu
      · exact h₁ v hv'

theorem updateFirstTask_decomp {t₁ t₂ : List Task} {tid : Nat} {t : Task}
    (g : Task → Task) (h₁ : ∀ u ∈ t₁, u.id ≠ tid) (ht : t.id = tid) :
    updateFirstTask (t₁ ++ t :: t₂) tid g = t₁ ++ g t :: t₂ := by
  induction t₁ with
  | nil => simp [updateFirstTask, ht]
  | cons u rest ih =>
    rw [List.cons_append, updateFirstTask,
      if_neg (h₁ u (List.mem_cons_self u rest)),
      ih (fun v hv => h₁ v (List.mem_cons_of_mem _ hv))]
    rfl

theorem removeFirstTask_decomp {t₁ t₂ : List Task} {tid : Nat} {t : Task}
    (h₁ : ∀ u ∈ t₁, u.id ≠ tid) (ht : t.id = tid) :
    removeFirstTask (t₁ ++ t :: t₂) tid = t₁ ++ t₂ := by
  induction t₁ with
  | nil => simp [removeFirstTask, ht]
  | cons u rest ih =>
    rw [List.cons_append, removeFirstTask,
      if_neg (h₁ u (List.mem_cons_self u rest)),
      ih (fun v hv => h₁ v (List.mem_cons_of_mem _ hv))]
    rfl

theorem dictGet_decomp {l : List (Nat × Project)} {k : Nat} {p : Project}
    (h : dictGet l k = some p) :
    ∃ l₁ l₂, l = l₁ ++ (k, p) :: l₂ ∧ (∀ e ∈ l₁, e.1 ≠ k) := by
  induction l with
  | nil => simp [dictGet] at h
  | cons e rest ih =>
    rw [dictGet] at h
    by_cases hk : e.1 = k
    · rw [if_pos hk] at h
      injection h with h'
      subst h'
      have he : e = (k, e.2) := by
        cases e with
        | mk a b => simp at hk; simp [hk]
      exact ⟨[], rest, by rw [← he]; rfl, by simp⟩
    · rw [if_neg hk] at h
      obtain ⟨l₁, l₂, hl, h₁⟩ := ih h
      refine ⟨e :: l₁, l₂, by rw [hl]; rfl, ?_⟩
      intro e' he'
      rcases List.mem_cons.mp he' with rfl | he''
      · exact hk
      · exact h₁ e' he''

theorem dictGet_decomp_nodup {l : List (Nat × Project)} {k : Nat} {p : Project}
    (h : dictGet l k = some p) (hnd : (l.map Prod.fst).Nodup) :
    ∃ l₁ l₂, l = l₁ ++ (k, p) :: l₂ ∧ (∀ e ∈ l₁, e.1 ≠ k) ∧ (∀ e ∈ l₂, e.1 ≠ k) := by
  obtain ⟨l₁, l₂, hl, h₁⟩ := dictGet_decomp h
  refine ⟨l₁, l₂, hl, h₁, ?_⟩
  subst hl
  intro e he
  simp only [List.map_append, List.map_cons] at hnd
  have := (List.nodup_append.mp hnd).2.1
  have hk : k ∉ l₂.map Prod.fst := (List.nodup_cons.mp this).1
  intro hek
  exact hk (hek ▸ List.mem_map_of_mem Prod.fst he)

theorem dictUpdate_append (l₁ l₂ : List (Nat × Project)) (k : Nat) (f : Project → Project) :
    dictUpdate (l₁ ++ l₂) k f = dictUpdate l₁ k f ++ dictUpdate l₂ k f :=
  List.map_append _ l₁ l₂

theorem dictUpdate_decomp {l₁ l₂ : List (Nat × Project)} {k : Nat} {p : Project}
    (f : Project → Project) (h₁ : ∀ e ∈ l₁, e.1 ≠ k) (h₂ : ∀ e ∈ l₂, e.1 ≠ k) :
    dictUpdate (l₁ ++ (k, p) :: l₂) k f = l₁ ++ (k, f p) :: l₂ := by
  rw [dictUpdate_append, dictUpdate_of_no_key h₁]
  rw [dictUpdate]
  simp only [List.map_cons, if_pos rfl]
  have := dictUpdate_of_no_key (f := f) h₂
  rw [dictUpdate] at this
  rw [this]
  simp

theorem dictDel_decomp {l₁ l₂ : List (Nat × Project)} {k : Nat} {p : Project}
    (h₁ : ∀ e ∈ l₁, e.1 ≠ k) :
    dictDel (l₁ ++ (k, p) :: l₂) k = l₁ ++ l₂ := by
  induction l₁ with
  | nil => simp [dictDel]
  | cons e rest ih =>
    rw [List.cons_append, dictDel,
      if_neg (h₁ e (List.mem_cons_self e rest)),
      ih (fun e' he' => h₁ e' (List.mem_cons_of_mem _ he'))]
    rfl

theorem sortByIdLe_of_sorted {ts : List Project}
    (h : ts.Pairwise (fun p q => p.id ≤ q.id)) : sortByIdLe ts = ts := by
  induction ts with
  | nil => rfl
  | cons p rest ih =>
    rw [sortByIdLe, ih (List.Pairwise.of_cons h)]
    cases rest with
    | nil => rfl
    | cons q rest2 =>
      rw [insertByIdLe,
        if_pos ((List.pairwise_cons.mp h).1 q (List.mem_cons_self q rest2))]

theorem mem_dictUpdate_cases {l : List (Nat × Project)} {k : Nat} {f : Project → Project}
    {e' : Nat × Project} (h : e' ∈ dictUpdate l k f) :
    ∃ e ∈ l, e' = e ∨ e' = (e.1, f e.2) := by
  obtain ⟨e, he, hmap⟩ := List.mem_map.mp h
  refine ⟨e, he, ?_⟩
  by_cases hk : e.1 = k
  · right; rw [← hmap, if_pos hk]
  · left; rw [← hmap, if_neg hk]

theorem keyEq_dictUpdate {l : List (Nat × Project)} {k : Nat} {f : Project → Project}
    (h1 : ∀ e ∈ l, e.2.id = e.1) (hf : ∀ q, (f q).id = q.id) :
    ∀ e ∈ dictUpdate l k f, e.2.id = e.1 := by
  intro e' he'
  obtain ⟨e, he, hc⟩ := mem_dictUpdate_cases he'
  rcases hc with hcase | hcase
  · subst hcase; exact h1 _ he
  · subst hcase; simpa [hf] using h1 _ he

theorem fst_pred_dictUpdate {l : List (Nat × Project)} {k : Nat} {f : Project → Project}
    {P : Nat → Prop} (h : ∀ e ∈ l, P e.1) : ∀ e ∈ dictUpdate l k f, P e.1 := by
  intro e' he'
  obtain ⟨e, he, hc⟩ := mem_dictUpdate_cases he'
  rcases hc with hcase | hcase
  · subst hcase; exact h _ he
  · subst hcase; exact h e he

theorem tidLt_dictUpdate_of_map_id_subset {l : List (Nat × Project)} {k bound : Nat}
    {f : Project → Project}
    (h3 : ∀ e ∈ l, ∀ t ∈ e.2.tasks, t.id < bound)
    (hf : ∀ q, ∀ x ∈ (f q).tasks.map Task.id, x ∈ q.tasks.map Task.id) :
    ∀ e ∈ dictUpdate l k f, ∀ t ∈ e.2.tasks, t.id < bound := by
  intro e' he' t ht
  obtain ⟨e, he, hc⟩ := mem_dictUpdate_cases he'
  rcases hc with hcase | hcase
  · subst hcase; exact h3 _ he t ht
  · subst hcase
    have hmem : t.id ∈ (f e.2).tasks.map Task.id := List.mem_map_of_mem Task.id ht
    obtain ⟨u, hu, hid⟩ := List.mem_map.mp (hf e.2 t.id hmem)
    exact hid ▸ h3 _ he u hu

theorem inv_add_project {repo : InMemoryRepository} (h : Inv repo)
    (maxP : Nat) (n d : String) : Inv (add_project maxP repo n d).2 := by
  obtain ⟨h1, h2, h3, h4, h5, h6⟩ := h
  rw [add_project]
  split_ifs with hge hdup hn hd
  · exact ⟨h1, h2, h3, h4, h5, h6⟩
  · exact ⟨h1, h2, h3, h4, h5, h6⟩
  · exact ⟨h1, h2, h3, h4, h5, h6⟩
  · exact ⟨h1, h2, h3, h4, h5, h6⟩
  have hfresh : ∀ e ∈ repo.projects, e.1 ≠ repo.next_project_id :=
    fun e he => Nat.ne_of_lt (h2 e he)
  show Inv ⟨dictSet repo.projects repo.next_project_id
      ⟨repo.next_project_id, n, d, []⟩, repo.next_project_id + 1, repo.next_task_id⟩
  rw [dictSet_of_fresh hfresh]
  refine ⟨?_, ?_, ?_, ?_, ?_, ?_⟩
  · intro e he
    rcases List.mem_append.mp he with he' | he'
    · exact h1 e he'
    · rcases List.mem_singleton.mp he' with rfl; rfl
  · intro e he
    rcases List.mem_append.mp he with he' | he'
    · exact Nat.lt_succ_of_lt (h2 e he')
    · rcases List.mem_singleton.mp he' with rfl; exact Nat.lt_succ_self _
  · intro e he t ht
    rcases List.mem_append.mp he with he' | he'
    · exact h3 e he' t ht
    · rcases List.mem_singleton.mp he' with rfl; simp at ht
  · rw [List.map_append]
    rw [List.pairwise_append]
    refine ⟨h4, List.pairwise_singleton _ _, ?_⟩
    intro a ha b hb
    simp only [List.map_cons, List.map_nil, List.mem_singleton] at hb
    obtain ⟨e, he, rfl⟩ := List.mem_map.mp ha
    rw [hb]
    exact h2 e he
  · rw [List.map_append]
    rw [List.nodup_append]
    refine ⟨h5, List.nodup_singleton _, ?_⟩
    intro a ha hb
    simp only [List.map_cons, List.map_nil, List.mem_singleton] at hb
    obtain ⟨e, he, rfl⟩ := List.mem_map.mp ha
    rw [List.any_eq_true] at hdup
    push_neg at hdup
    exact absurd (by simpa using hb) (by simpa using hdup e he)
  · rw [allTaskIds_append]
    simpa [allTaskIds] using h6

theorem inv_edit_project {repo : InMemoryRepository} (h : Inv repo)
    (pid : Nat) (n d : String) : Inv (edit_project repo pid n d).2 := by
  obtain ⟨h1, h2, h3, h4, h5, h6⟩ := h
  rw [edit_project]
  cases heq : dictGet repo.projects pid with
  | none => exact ⟨h1, h2, h3, h4, h5, h6⟩
  | some p =>
    split_ifs with hn hd hdup
    · exact ⟨h1, h2, h3, h4, h5, h6⟩
    · exact ⟨h1, h2, h3, h4, h5, h6⟩
    · exact ⟨h1, h2, h3, h4, h5, h6⟩
    show Inv ⟨dictUpdate repo.projects pid
        (fun q => { q with name := n, description := d }),
      repo.next_project_id, repo.next_task_id⟩
    refine ⟨?_, ?_, ?_, ?_, ?_, ?_⟩
    · show ∀ e ∈ dictUpdate repo.projects pid
          (fun q => { q with name := n, description := d }), e.2.id = e.1
      exact keyEq_dictUpdate h1 (fun q => rfl)
    · show ∀ e ∈ dictUpdate repo.projects pid
          (fun q => { q with name := n, description := d }),
          e.1 < repo.next_project_id
      exact fst_pred_dictUpdate (P := fun a => a < repo.next_project_id) h2
    · show ∀ e ∈ dictUpdate repo.projects pid
          (fun q => { q with name := n, description := d }),
          ∀ t ∈ e.2.tasks, t.id < repo.next_task_id
      exact tidLt_dictUpdate_of_map_id_subset h3 (fun q x hx => hx)
    · show ((dictUpdate repo.projects pid
          (fun q => { q with name := n, description := d })).map Prod.fst).Pairwise (· < ·)
      rw [dictUpdate_map_fst]; exact h4
    · have hnd : (repo.projects.map Prod.fst).Nodup :=
        h4.imp (fun hab => Nat.ne_of_lt hab)
      obtain ⟨l₁, l₂, hl, hk₁, hk₂⟩ := dictGet_decomp_nodup heq hnd
      rw [hl, dictUpdate_decomp _ hk₁ hk₂]
      rw [hl] at h1 h5
      rw [List.any_eq_true] at hdup
      push_neg at hdup
      rw [hl] at hdup
      have hname : ∀ e ∈ l₁ ++ l₂, e.2.name ≠ n := by
        intro e he
        have hmem : e ∈ l₁ ++ (pid, p) :: l₂ := by
          rcases List.mem_append.mp he with he' | he'
          · exact List.mem_append.mpr (Or.inl he')
          · exact List.mem_append.mpr (Or.inr (List.mem_cons_of_mem _ he'))
        have hkey : e.1 ≠ pid := by
          rcases List.mem_append.mp he with he' | he'
          · exact hk₁ e he'
          · exact hk₂ e he'
        have hid : e.2.id ≠ pid := (h1 e hmem) ▸ hkey
        have := hdup e hmem
        simp only [Bool.and_eq_true, beq_iff_eq, bne_iff_ne, ne_eq] at this
        intro hcontra
        exact this ⟨hcontra, hid⟩
      simp only [List.map_append, List.map_cons] at h5 ⊢
      rw [List.nodup_append] at h5 ⊢
      obtain ⟨hn₁, hn₂, hdisj⟩ := h5
      rw [List.nodup_cons] at hn₂ ⊢
      refine ⟨hn₁, ⟨?_, hn₂.2⟩, ?_⟩
      · intro hmem
        obtain ⟨e, he, hen⟩ := List.mem_map.mp hmem
        exact hname e (List.mem_append.mpr (Or.inr he)) hen
      · intro a ha hb
        rcases List.mem_cons.mp hb with rfl | hb'
        · obtain ⟨e, he, hen⟩ := List.mem_map.mp ha
          exact hname e (List.mem_append.mpr (Or.inl he)) hen
        · exact hdisj ha (List.mem_cons_of_mem _ hb')
    · show (allTaskIds (dictUpdate repo.projects pid
          (fun q => { q with name := n, description := d }))).Nodup
      rw [allTaskIds_dictUpdate_eq
        (f := fun q => { q with name := n, description := d }) (fun q => rfl)]
      exact h6

theorem allTaskIds_dictDel_sublist (l : List (Nat × Project)) (k : Nat) :
    (allTaskIds (dictDel l k)).Sublist (allTaskIds l) := by
  induction l with
  | nil => exact List.Sublist.refl _
  | cons e rest ih =>
    rw [dictDel]
    by_cases hk : e.1 = k
    · rw [if_pos hk]
      show (allTaskIds rest).Sublist (allTaskIds (e :: rest))
      rw [allTaskIds]
      exact List.sublist_append_right _ _
    · rw [if_neg hk]
      show (allTaskIds (e :: dictDel rest k)).Sublist (allTaskIds (e :: rest))
      rw [allTaskIds, allTaskIds]
      exact List.Sublist.append (List.Sublist.refl _) ih

theorem nodup_insert_middle {A₁ T A₂ : List Nat} {x : Nat}
    (h : (A₁ ++ (T ++ A₂)).Nodup) (hx : x ∉ A₁ ++ (T ++ A₂)) :
    (A₁ ++ (T ++ x :: A₂)).Nodup := by
  have h' : ((A₁ ++ T) ++ x :: A₂).Nodup := by
    refine List.nodup_middle.mpr ?_
    rw [List.nodup_cons]
    constructor
    · simpa [List.append_assoc, List.mem_append] using hx
    · simpa [List.append_assoc] using h
  simpa [List.append_assoc] using h'

theorem inv_delete_project {repo : InMemoryRepository} (h : Inv repo)
    (pid : Nat) : Inv (delete_project repo pid).2 := by
  obtain ⟨h1, h2, h3, h4, h5, h6⟩ := h
  rw [delete_project]
  split_ifs with hnone
  · exact ⟨h1, h2, h3, h4, h5, h6⟩
  show Inv ⟨dictDel repo.projects pid, repo.next_project_id, repo.next_task_id⟩
  have hsub := dictDel_sublist repo.projects pid
  refine ⟨?_, ?_, ?_, ?_, ?_, ?_⟩
  · exact fun e he => h1 e (hsub.subset he)
  · exact fun e he => h2 e (hsub.subset he)
  · exact fun e he t ht => h3 e (hsub.subset he) t ht
  · exact h4.sublist (hsub.map Prod.fst)
  · exact h5.sublist (hsub.map (fun e => e.2.name))
  · exact h6.sublist (allTaskIds_dictDel_sublist _ _)

theorem inv_add_task {repo : InMemoryRepository} (h : Inv repo)
    (maxT pid : Nat) (ti de st : String) (dl : Option String) :
    Inv (add_task maxT repo pid ti de st dl).2 := by
  rw [add_task]
  split
  · exact h
  next p heq =>
    split_ifs with hcnt hti hde hst
    · exact h
    · exact h
    · exact h
    · exact h
    split
    · exact h
    next dt hdl =>
      obtain ⟨h1, h2, h3, h4, h5, h6⟩ := h
      refine ⟨?_, ?_, ?_, ?_, ?_, ?_⟩
      · show ∀ e ∈ dictUpdate repo.projects pid
            (fun q => { q with tasks := q.tasks ++
              [⟨repo.next_task_id, ti, de, st, dt⟩] }), e.2.id = e.1
        exact keyEq_dictUpdate h1 (fun q => rfl)
      · show ∀ e ∈ dictUpdate repo.projects pid
            (fun q => { q with tasks := q.tasks ++
              [⟨repo.next_task_id, ti, de, st, dt⟩] }), e.1 < repo.next_project_id
        exact fst_pred_dictUpdate (P := fun a => a < repo.next_project_id) h2
      · show ∀ e ∈ dictUpdate repo.projects pid
            (fun q => { q with tasks := q.tasks ++
              [⟨repo.next_task_id, ti, de, st, dt⟩] }),
            ∀ t ∈ e.2.tasks, t.id < repo.next_task_id + 1
        intro e' he' t ht
        obtain ⟨e, he, hc⟩ := mem_dictUpdate_cases he'
        rcases hc with hcase | hcase
        · subst hcase; exact Nat.lt_succ_of_lt (h3 _ he t ht)
        · subst hcase
          simp only at ht
          rcases List.mem_append.mp ht with ht' | ht'
          · exact Nat.lt_succ_of_lt (h3 e he t ht')
          · rcases List.mem_singleton.mp ht' with rfl
            exact Nat.lt_succ_self _
      · show ((dictUpdate repo.projects pid
            (fun q => { q with tasks := q.tasks ++
              [⟨repo.next_task_id, ti, de, st, dt⟩] })).map Prod.fst).Pairwise (· < ·)
        rw [dictUpdate_map_fst]; exact h4
      · show ((dictUpdate repo.projects pid
            (fun q => { q with tasks := q.tasks ++
              [⟨repo.next_task_id, ti, de, st, dt⟩] })).map (fun e => e.2.name)).Nodup
        rw [dictUpdate_map_name
          (f := fun q => { q with tasks := q.tasks ++
            [⟨repo.next_task_id, ti, de, st, dt⟩] }) (fun q => rfl)]
        exact h5
      · show (allTaskIds (dictUpdate repo.projects pid
            (fun q => { q with tasks := q.tasks ++
              [⟨repo.next_task_id, ti, de, st, dt⟩] }))).Nodup
        have hnd : (repo.projects.map Prod.fst).Nodup :=
          h4.imp (fun hab => Nat.ne_of_lt hab)
        obtain ⟨l₁, l₂, hl, hk₁, hk₂⟩ := dictGet_decomp_nodup heq hnd
        rw [hl, dictUpdate_decomp _ hk₁ hk₂]
        rw [hl] at h3 h6
        rw [allTaskIds_append, allTaskIds] at h6 ⊢
        simp only [List.map_append, List.map_cons, List.map_nil, List.append_assoc,
          List.singleton_append, List.nil_append] at h6 ⊢
        refine nodup_insert_middle h6 ?_
        intro hmem
        have hmem' : repo.next_task_id ∈ allTaskIds (l₁ ++ (pid, p) :: l₂) := by
          rw [allTaskIds_append, allTaskIds]
          simpa [List.append_assoc] using hmem
        obtain ⟨e, he, t, ht, hid⟩ := mem_allTaskIds.mp hmem'
        exact absurd (hid ▸ h3 e he t ht) (Nat.lt_irrefl _)

theorem inv_dictUpdate_tasks {repo : InMemoryRepository} (h : Inv repo)
    (pid : Nat) (f : Project → Project)
    (hid : ∀ q, (f q).id = q.id)
    (hname : ∀ q, (f q).name = q.name)
    (hmap : ∀ q, (((f q).tasks.map Task.id)).Sublist (q.tasks.map Task.id)) :
    Inv ⟨dictUpdate repo.projects pid f, repo.next_project_id, repo.next_task_id⟩ := by
  obtain ⟨h1, h2, h3, h4, h5, h6⟩ := h
  refine ⟨?_, ?_, ?_, ?_, ?_, ?_⟩
  · exact keyEq_dictUpdate h1 hid
  · exact fst_pred_dictUpdate (P := fun a => a < repo.next_project_id) h2
  · exact tidLt_dictUpdate_of_map_id_subset h3 (fun q x hx => (hmap q).subset hx)
  · show ((dictUpdate repo.projects pid f).map Prod.fst).Pairwise (· < ·)
    rw [dictUpdate_map_fst]; exact h4
  · show ((dictUpdate repo.projects pid f).map (fun e => e.2.name)).Nodup
    rw [dictUpdate_map_name hname]; exact h5
  · exact h6.sublist (allTaskIds_dictUpdate_sublist hmap _ _)

theorem inv_edit_task {repo : InMemoryRepository} (h : Inv repo)
    (pid tid : Nat) (ti de st : String) (dl : Option String) :
    Inv (edit_task repo pid tid ti de st dl).2 := by
  rw [edit_task]
  split
  · exact h
  next p heq =>
    split
    · exact h
    next task htask =>
      split_ifs with hti hde hst
      · exact h
      · exact h
      · exact h
      split
      · exact h
      next dt hdl =>
        exact inv_dictUpdate_tasks h pid
          (fun q => { q with tasks := updateFirstTask q.tasks tid (fun t => { t with title := ti, description := de, status := st, deadline := dt }) })
          (fun q => rfl) (fun q => rfl)
          (fun q => by
            show ((updateFirstTask q.tasks tid (fun t => { t with title := ti, description := de, status := st, deadline := dt })).map Task.id).Sublist (q.tasks.map Task.id)
            rw [updateFirstTask_map_id (g := fun t => { t with title := ti, description := de, status := st, deadline := dt }) (fun t => rfl)])

theorem inv_delete_task {repo : InMemoryRepository} (h : Inv repo)
    (pid tid : Nat) : Inv (delete_task repo pid tid).2 := by
  rw [delete_task]
  split
  · exact h
  next p heq =>
    split
    · exact h
    next task htask =>
      exact inv_dictUpdate_tasks h pid
        (fun q => { q with tasks := removeFirstTask q.tasks tid })
        (fun q => rfl) (fun q => rfl)
        (fun q => (removeFirstTask_sublist q.tasks tid).map Task.id)

theorem inv_change_task_status {repo : InMemoryRepository} (h : Inv repo)
    (pid tid : Nat) (st : String) : Inv (change_task_status repo pid tid st).2 := by
  rw [change_task_status]
  split
  · exact h
  next p heq =>
    split
    · exact h
    next task htask =>
      split_ifs with hst
      · exact h
      exact inv_dictUpdate_tasks h pid
        (fun q => { q with tasks := updateFirstTask q.tasks tid (fun t => { t with status := st }) })
        (fun q => rfl) (fun q => rfl)
        (fun q => by
          show ((updateFirstTask q.tasks tid (fun t => { t with status := st })).map Task.id).Sublist (q.tasks.map Task.id)
          rw [updateFirstTask_map_id (g := fun t => { t with status := st }) (fun t => rfl)])

theorem findTask_mem {ts : List Task} {tid : Nat} {t : Task}
    (h : findTask ts tid = some t) : t ∈ ts ∧ t.id = tid := by
  induction ts with
  | nil => simp [findTask] at h
  | cons u rest ih =>
    rw [findTask] at h
    by_cases hu : u.id = tid
    · rw [if_pos hu] at h
      injection h with h'
      subst h'
      exact ⟨List.mem_cons_self u rest, hu⟩
    · rw [if_neg hu] at h
      obtain ⟨hmem, hid⟩ := ih h
      exact ⟨List.mem_cons_of_mem _ hmem, hid⟩

theorem inv_initRepo : Inv initRepo := by decide

theorem inv_applyOp (maxP maxT : Nat) {repo : InMemoryRepository} (h : Inv repo)
    (op : Op) : Inv (applyOp maxP maxT repo op) := by
  cases op with
  | addProject n d => exact inv_add_project h maxP n d
  | editProject pid n d => exact inv_edit_project h pid n d
  | deleteProject pid => exact inv_delete_project h pid
  | addTask pid t d st dl => exact inv_add_task h maxT pid t d st dl
  | editTask pid tid t d st dl => exact inv_edit_task h pid tid t d st dl
  | deleteTask pid tid => exact inv_delete_task h pid tid
  | changeTaskStatus pid tid st => exact inv_change_task_status h pid tid st

theorem inv_runOpsFrom (maxP maxT : Nat) {repo : InMemoryRepository} (h : Inv repo)
    (ops : List Op) : Inv (runOpsFrom maxP maxT repo ops) := by
  induction ops generalizing repo with
  | nil => exact h
  | cons op rest ih => exact ih (inv_applyOp maxP maxT h op)

theorem inv_reachable {maxP maxT : Nat} {repo : InMemoryRepository}
    (h : Reachable maxP maxT repo) : Inv repo := by
  obtain ⟨ops, hops⟩ := h
  rw [← hops]
  exact inv_runOpsFrom maxP maxT inv_initRepo ops

theorem next_task_id_applyOp (maxP maxT : Nat) (repo : InMemoryRepository) (op : Op) :
    repo.next_task_id ≤ (applyOp maxP maxT repo op).next_task_id := by
  cases op with
  | addProject n d =>
    rw [applyOp, add_project]
    split_ifs <;> exact Nat.le_refl _
  | editProject pid n d =>
    rw [applyOp, edit_project]
    split
    · exact Nat.le_refl _
    split_ifs <;> exact Nat.le_refl _
  | deleteProject pid =>
    rw [applyOp, delete_project]
    split_ifs <;> exact Nat.le_refl _
  | addTask pid t d st dl =>
    rw [applyOp, add_task]
    split
    · exact Nat.le_refl _
    split_ifs
    · exact Nat.le_refl _
    · exact Nat.le_refl _
    · exact Nat.le_refl _
    · exact Nat.le_refl _
    split
    · exact Nat.le_refl _
    · exact Nat.le_succ _
  | editTask pid tid t d st dl =>
    rw [applyOp, edit_task]
    split
    · exact Nat.le_refl _
    split
    · exact Nat.le_refl _
    split_ifs
    · exact Nat.le_refl _
    · exact Nat.le_refl _
    · exact Nat.le_refl _
    split
    · exact Nat.le_refl _
    · exact Nat.le_refl _
  | deleteTask pid tid =>
    rw [applyOp, delete_task]
    split
    · exact Nat.le_refl _
    split
    · exact Nat.le_refl _
    · exact Nat.le_refl _
  | changeTaskStatus pid tid st =>
    rw [applyOp, change_task_status]
    split
    · exact Nat.le_refl _
    split
    · exact Nat.le_refl _
    split_ifs <;> exact Nat.le_refl _

theorem add_project_ok {maxP : Nat} {repo : InMemoryRepository} {n d : String}
    {p : Project} {repo' : InMemoryRepository}
    (h : add_project maxP repo n d = (.ok p, repo')) :
    repo.projects.length < maxP ∧ (∀ e ∈ repo.projects, e.2.name ≠ n) ∧
    n.length ≤ 30 ∧ d.length ≤ 150 ∧
    p = ⟨repo.next_project_id, n, d, []⟩ ∧
    repo' = ⟨dictSet repo.projects repo.next_project_id
      ⟨repo.next_project_id, n, d, []⟩,
      repo.next_project_id + 1, repo.next_task_id⟩ := by
  rw [add_project] at h
  split_ifs at h with hge hdup hn hd
  · simp at h
  · simp at h
  · simp at h
  · simp at h
  injection h with hp hr
  injection hp with hp
  refine ⟨Nat.lt_of_not_le (fun hle => hge hle), ?_, Nat.le_of_not_lt hn,
    Nat.le_of_not_lt hd, hp.symm, hr.symm⟩
  intro e he hne
  rw [List.any_eq_true] at hdup
  exact hdup ⟨e, he, by simp [hne]⟩

theorem add_task_ok {maxT : Nat} {repo : InMemoryRepository} {pid : Nat}
    {ti de st : String} {dl : Option String} {t : Task} {repo' : InMemoryRepository}
    (h : add_task maxT repo pid ti de st dl = (.ok t, repo')) :
    ∃ p dt, dictGet repo.projects pid = some p ∧
      p.tasks.length < maxT ∧ ti.length ≤ MAX_TASK_TITLE ∧ de.length ≤ MAX_TASK_DESC ∧
      VALID_STATUSES.contains st = true ∧ computeDeadline dl = .ok dt ∧
      t = ⟨repo.next_task_id, ti, de, st, dt⟩ ∧
      repo' = ⟨dictUpdate repo.projects pid
        (fun q => { q with tasks := q.tasks ++ [⟨repo.next_task_id, ti, de, st, dt⟩] }),
        repo.next_project_id, repo.next_task_id + 1⟩ := by
  rw [add_task] at h
  split at h
  · simp at h
  next p heq =>
    split_ifs at h with hcnt hti hde hst
    · simp at h
    · simp at h
    · simp at h
    · simp at h
    split at h
    · simp at h
    next dt hdl =>
      injection h with hp hr
      injection hp with hp
      exact ⟨p, dt, heq, Nat.lt_of_not_le hcnt, Nat.le_of_not_lt hti,
        Nat.le_of_not_lt hde, by simpa using hst, hdl, hp.symm, hr.symm⟩

theorem inv_keys_nodup {repo : InMemoryRepository} (h : Inv repo) :
    (repo.projects.map Prod.fst).Nodup :=
  h.2.2.2.1.imp (fun hab => Nat.ne_of_lt hab)

theorem sublist_allTaskIds_of_mem {l : List (Nat × Project)} {e : Nat × Project}
    (he : e ∈ l) : (e.2.tasks.map Task.id).Sublist (allTaskIds l) := by
  induction l with
  | nil => simp at he
  | cons e' rest ih =>
    rcases List.mem_cons.mp he with rfl | he'
    · rw [allTaskIds]
      exact List.sublist_append_left _ _
    · rw [allTaskIds]
      exact (ih he').trans (List.sublist_append_right _ _)

theorem project_tasks_id_nodup {repo : InMemoryRepository} (h : Inv repo)
    {e : Nat × Project} (he : e ∈ repo.projects) : (e.2.tasks.map Task.id).Nodup :=
  h.2.2.2.2.2.sublist (sublist_allTaskIds_of_mem he)

theorem findTask_of_mem_nodup {ts : List Task} {tid : Nat} {t : Task}
    (hnd : (ts.map Task.id).Nodup) (ht : t ∈ ts) (hid : t.id = tid) :
    findTask ts tid = some t := by
  induction ts with
  | nil => simp at ht
  | cons u rest ih =>
    rw [List.map_cons, List.nodup_cons] at hnd
    rw [findTask]
    rcases List.mem_cons.mp ht with rfl | ht'
    · rw [if_pos hid]
    · by_cases hu : u.id = tid
      · exfalso
        exact hnd.1 (hu ▸ hid ▸ List.mem_map_of_mem Task.id ht')
      · rw [if_neg hu]
        exact ih hnd.2 ht'

theorem dictGet_dictDel_self {l : List (Nat × Project)} {k : Nat} {p : Project}
    (hnd : (l.map Prod.fst).Nodup) (h : dictGet l k = some p) :
    dictGet (dictDel l k) k = none := by
  obtain ⟨l₁, l₂, hl, hk₁, hk₂⟩ := dictGet_decomp_nodup h hnd
  rw [hl, dictDel_decomp hk₁]
  rw [dictGet_eq_none_iff]
  intro e he
  rcases List.mem_append.mp he with he' | he'
  · exact hk₁ e he'
  · exact hk₂ e he'

theorem computeDeadline_error {dl : Option String} {e : TodoError}
    (h : computeDeadline dl = .error e) :
    e = .validationError "Deadline must be in YYYY-MM-DD format." := by
  cases dl with
  | none => simp [computeDeadline] at h
  | some d =>
    rw [computeDeadline.eq_def] at h
    split at h
    · exact Except.noConfusion h
    split_ifs at h with hd
    split at h
    · exact Except.noConfusion h
    · injection h with h'
      exact h'.symm

theorem list_projects_eq_of_inv {repo : InMemoryRepository} (h : Inv repo) :
    list_projects repo = repo.projects.map (fun e => e.2) := by
  rw [list_projects]
  apply sortByIdLe_of_sorted
  have h4 := h.2.2.2.1
  have h1 := h.1
  rw [List.pairwise_map] at h4 ⊢
  exact List.Pairwise.imp_of_mem
    (fun ha hb hr => by rw [h1 _ ha, h1 _ hb]; exact Nat.le_of_lt hr) h4

theorem list_projects_id_pairwise_of_inv {repo : InMemoryRepository} (h : Inv repo) :
    ((list_projects repo).map Project.id).Pairwise (· < ·) := by
  have hmm : (repo.projects.map (fun e => e.2)).map Project.id =
      repo.projects.map (fun e => e.2.id) := by simp
  rw [list_projects_eq_of_inv h, hmm, List.pairwise_map]
  have h4 := h.2.2.2.1
  rw [List.pairwise_map] at h4
  exact List.Pairwise.imp_of_mem
    (fun ha hb hr => by rw [h.1 _ ha, h.1 _ hb]; exact hr) h4

/-! ### Claim theorems -/

/-- C1: Task ids are globally unique and never reused.  `next_task_id` never
decreases under any repository operation; in any state satisfying the
structural invariant, a successful `add_task` hands out exactly
`next_task_id`, which is strictly greater than every task id stored in any
project, and then moves the counter past it; and in every reachable state all
stored task ids are pairwise distinct, so tasks in different projects never
share an id and a deleted id is never assigned again. -/
theorem task_ids_monotone_and_never_reused :
    (∀ maxP maxT repo op,
      repo.next_task_id ≤ (applyOp maxP maxT repo op).next_task_id) ∧
    (∀ maxT repo pid ti de st dl t repo', Inv repo →
      add_task maxT repo pid ti de st dl = (.ok t, repo') →
      t.id = repo.next_task_id ∧
      (∀ e ∈ repo.projects, ∀ u ∈ e.2.tasks, u.id < t.id) ∧
      repo'.next_task_id = t.id + 1) ∧
    (∀ maxP maxT repo, Reachable maxP maxT repo →
      (allTaskIds repo.projects).Nodup) := by
  refine ⟨next_task_id_applyOp, ?_, ?_⟩
  · intro maxT repo pid ti de st dl t repo' hinv h
    obtain ⟨p, dt, heq, hc, hti, hde, hst, hdl, hp, hr⟩ := add_task_ok h
    subst hp
    subst hr
    exact ⟨rfl, fun e he u hu => hinv.2.2.1 e he u hu, rfl⟩
  · intro maxP maxT repo hreach
    exact (inv_reachable hreach).2.2.2.2.2

theorem task_ids_monotone_and_never_reused_witness :
    Inv repoP ∧
    add_task 200 repoP 1 "T" "D" "todo" none =
      (.ok ⟨1, "T", "D", "todo", none⟩,
        ⟨[(1, ⟨1, "P", "", [⟨1, "T", "D", "todo", none⟩]⟩)], 2, 2⟩) ∧
    ((1 : Nat) = repoP.next_task_id ∧
      (∀ e ∈ repoP.projects, ∀ u ∈ e.2.tasks,
        u.id < (1 : Nat)) ∧
      (⟨[(1, ⟨1, "P", "", [⟨1, "T", "D", "todo", none⟩]⟩)], 2,
        2⟩ : InMemoryRepository).next_task_id = 1 + 1) :=
  ⟨by decide, rfl,
    task_ids_monotone_and_never_reused.2.1 200 repoP 1 "T" "D" "todo" none
      ⟨1, "T", "D", "todo", none⟩
      ⟨[(1, ⟨1, "P", "", [⟨1, "T", "D", "todo", none⟩]⟩)], 2, 2⟩
      (by decide) rfl⟩

/-- C3: whenever the stored project count is at least the configured maximum,
`add_project` returns the limit-exceeded `ValidationError` and the entire
repository state (project map and both id counters) is returned unchanged. -/
theorem add_project_at_limit :
    ∀ maxP repo n d, repo.projects.length ≥ maxP →
      add_project maxP repo n d =
        (.error (.validationError "Maximum number of projects reached."), repo) := by
  intro maxP repo n d h
  rw [add_project, if_pos h]

theorem add_project_at_limit_witness :
    repoP.projects.length ≥ 1 ∧
    add_project 1 repoP "Alpha" "x" =
      (.error (.validationError "Maximum number of projects reached."), repoP) :=
  ⟨by decide, add_project_at_limit 1 repoP "Alpha" "x" (by decide)⟩

/-- C9: the structural invariant holds in every state produced by a sequence
of repository operations (each stored key equals its project's id field,
`next_project_id` strictly dominates every stored project id, and
`next_task_id` strictly dominates every stored task id), and the full
invariant is preserved by every single operation. -/
theorem structural_invariant_every_op :
    (∀ maxP maxT ops,
      (∀ e ∈ (runOps maxP maxT ops).projects, e.2.id = e.1) ∧
      (∀ e ∈ (runOps maxP maxT ops).projects,
        e.2.id < (runOps maxP maxT ops).next_project_id) ∧
      (∀ e ∈ (runOps maxP maxT ops).projects, ∀ t ∈ e.2.tasks,
        t.id < (runOps maxP maxT ops).next_task_id)) ∧
    (∀ maxP maxT repo op, Inv repo → Inv (applyOp maxP maxT repo op)) := by
  refine ⟨?_, fun maxP maxT repo op h => inv_applyOp maxP maxT h op⟩
  intro maxP maxT ops
  have h := inv_runOpsFrom maxP maxT inv_initRepo ops
  refine ⟨h.1, ?_, h.2.2.1⟩
  intro e he
  rw [h.1 e he]
  exact h.2.1 e he

theorem structural_invariant_every_op_witness :
    Inv repoP ∧ Inv (applyOp 20 200 repoP (Op.addProject "Q" "")) :=
  ⟨by decide,
    structural_invariant_every_op.2 20 200 repoP (Op.addProject "Q" "") (by decide)⟩

/-- C4: deleting an existing project removes its entry (and with it all the
tasks it owns) while leaving both counters untouched; a subsequent
`list_tasks` on that id fails with the not-found `ValidationError`; and
`delete_project` on a missing id fails with the not-found `ValidationError`
and returns the state unchanged. -/
theorem delete_project_cascade_and_not_found :
    (∀ repo pid p, Inv repo → dictGet repo.projects pid = some p →
      delete_project repo pid =
        (.ok (), ⟨dictDel repo.projects pid,
          repo.next_project_id, repo.next_task_id⟩) ∧
      dictGet (dictDel repo.projects pid) pid = none ∧
      list_tasks (delete_project repo pid).2 pid =
        .error (.validationError "Project not found.")) ∧
    (∀ repo pid, dictGet repo.projects pid = none →
      delete_project repo pid =
        (.error (.validationError "Project not found."), repo)) := by
  constructor
  · intro repo pid p hinv heq
    have hdel : delete_project repo pid =
        (.ok (), ⟨dictDel repo.projects pid,
          repo.next_project_id, repo.next_task_id⟩) := by
      rw [delete_project, if_neg (by simp [heq])]
    have hnone : dictGet (dictDel repo.projects pid) pid = none :=
      dictGet_dictDel_self (inv_keys_nodup hinv) heq
    refine ⟨hdel, hnone, ?_⟩
    rw [hdel]
    simp only [list_tasks, hnone]
  · intro repo pid h
    rw [delete_project, if_pos (by simp [h])]

theorem delete_project_cascade_and_not_found_witness :
    Inv repoP ∧ dictGet repoP.projects 1 = some ⟨1, "P", "", []⟩ ∧
    (delete_project repoP 1 =
      (.ok (), ⟨dictDel repoP.projects 1,
        repoP.next_project_id, repoP.next_task_id⟩) ∧
     dictGet (dictDel repoP.projects 1) 1 = none ∧
     list_tasks (delete_project repoP 1).2 1 =
       .error (.validationError "Project not found.")) :=
  ⟨by decide, by decide,
    delete_project_cascade_and_not_found.1 repoP 1 ⟨1, "P", "", []⟩
      (by decide) (by decide)⟩

/-- C5: `list_projects` is total (it cannot fail) and, in every reachable
state, returns exactly the stored projects in strictly ascending id order;
this equals creation order because every successful `add_project` appends the
new project at the end of the listing; on the fresh repository the result is
empty. -/
theorem list_projects_sorted_and_creation_order :
    (∀ maxP maxT repo, Reachable maxP maxT repo →
      list_projects repo = repo.projects.map (fun e => e.2) ∧
      ((list_projects repo).map Project.id).Pairwise (· < ·)) ∧
    list_projects initRepo = [] ∧
    (∀ maxP repo n d p repo', Inv repo →
      add_project maxP repo n d = (.ok p, repo') →
      list_projects repo' = list_projects repo ++ [p]) := by
  refine ⟨?_, rfl, ?_⟩
  · intro maxP maxT repo hreach
    have hinv := inv_reachable hreach
    exact ⟨list_projects_eq_of_inv hinv, list_projects_id_pairwise_of_inv hinv⟩
  · intro maxP repo n d p repo' hinv h
    have hinv' : Inv repo' := by
      have : repo' = (add_project maxP repo n d).2 := by rw [h]
      rw [this]
      exact inv_add_project hinv maxP n d
    obtain ⟨hlen, hdup, hn, hd, hp, hr⟩ := add_project_ok h
    rw [list_projects_eq_of_inv hinv', list_projects_eq_of_inv hinv, hr]
    have hfresh : ∀ e ∈ repo.projects, e.1 ≠ repo.next_project_id :=
      fun e he => Nat.ne_of_lt (hinv.2.1 e he)
    show (dictSet repo.projects repo.next_project_id
        ⟨repo.next_project_id, n, d, []⟩).map (fun e => e.2) =
      repo.projects.map (fun e => e.2) ++ [p]
    rw [dictSet_of_fresh hfresh, List.map_append, hp]
    rfl

theorem list_projects_sorted_and_creation_order_witness :
    Inv repoP ∧
    add_project 20 repoP "Q" "q" =
      (.ok ⟨2, "Q", "q", []⟩,
        ⟨[(1, ⟨1, "P", "", []⟩), (2, ⟨2, "Q", "q", []⟩)], 3, 1⟩) ∧
    list_projects ⟨[(1, ⟨1, "P", "", []⟩), (2, ⟨2, "Q", "q", []⟩)], 3, 1⟩ =
      list_projects repoP ++ [⟨2, "Q", "q", []⟩] :=
  ⟨by decide, rfl,
    list_projects_sorted_and_creation_order.2.2 20 repoP "Q" "q"
      ⟨2, "Q", "q", []⟩ ⟨[(1, ⟨1, "P", "", []⟩), (2, ⟨2, "Q", "q", []⟩)], 3, 1⟩
      (by decide) rfl⟩

/-- C2: in every reachable state project names are pairwise distinct;
`add_project` with a name already in use always fails with a
`ValidationError` and leaves the state unchanged; and for an existing
project, with the length checks passing, `edit_project` fails exactly when
the new name belongs to a different project — in particular renaming a
project to its own current name succeeds. -/
theorem project_name_uniqueness :
    (∀ maxP maxT repo, Reachable maxP maxT repo →
      (repo.projects.map (fun e => e.2.name)).Nodup) ∧
    (∀ maxP repo n d, (∃ e ∈ repo.projects, e.2.name = n) →
      (∃ msg, (add_project maxP repo n d).1 = .error (.validationError msg)) ∧
      (add_project maxP repo n d).2 = repo) ∧
    (∀ repo pid p n d, Inv repo → dictGet repo.projects pid = some p →
      n.length ≤ 30 → d.length ≤ 150 →
      (((∃ msg, (edit_project repo pid n d).1 = .error (.validationError msg)) ↔
        (∃ e ∈ repo.projects, e.2.name = n ∧ e.2.id ≠ pid)) ∧
       (n = p.name →
        (edit_project repo pid n d).1 =
          .ok { p with name := n, description := d }))) := by
  refine ⟨?_, ?_, ?_⟩
  · intro maxP maxT repo hreach
    exact (inv_reachable hreach).2.2.2.2.1
  · rintro maxP repo n d ⟨e, he, hname⟩
    rw [add_project]
    split_ifs with hge hdup
    · exact ⟨⟨_, rfl⟩, rfl⟩
    · exact ⟨⟨_, rfl⟩, rfl⟩
    all_goals exact absurd (List.any_eq_true.mpr ⟨e, he, by simp [hname]⟩) hdup
  · intro repo pid p n d hinv heq hn hd
    have hn30 : ¬n.length > 30 := by omega
    have hd150 : ¬d.length > 150 := by omega
    constructor
    · by_cases hany : repo.projects.any (fun e => e.2.name == n && e.2.id != pid) = true
      · constructor
        · intro _
          obtain ⟨e, he, hb⟩ := List.any_eq_true.mp hany
          rw [Bool.and_eq_true, beq_iff_eq, bne_iff_ne] at hb
          exact ⟨e, he, hb.1, hb.2⟩
        · intro _
          refine ⟨"Project name '" ++ n ++ "' already exists.", ?_⟩
          simp only [edit_project, heq]
          rw [if_neg hn30, if_neg hd150, if_pos hany]
      · constructor
        · rintro ⟨msg, hmsg⟩
          exfalso
          simp only [edit_project, heq] at hmsg
          rw [if_neg hn30, if_neg hd150, if_neg hany] at hmsg
          exact Except.noConfusion hmsg
        · rintro ⟨e, he, hne, hid⟩
          exact absurd (List.any_eq_true.mpr ⟨e, he, by simp [hne, hid]⟩) hany
    · intro hnp
      have hany : ¬repo.projects.any
          (fun e => e.2.name == n && e.2.id != pid) = true := by
        intro hany
        obtain ⟨e, he, hb⟩ := List.any_eq_true.mp hany
        rw [Bool.and_eq_true, beq_iff_eq, bne_iff_ne] at hb
        have hmem := mem_of_dictGet heq
        have heid : e = (pid, p) :=
          List.inj_on_of_nodup_map hinv.2.2.2.2.1 he hmem
            (by show e.2.name = p.name; rw [hb.1, hnp])
        have hpid : p.id = pid := hinv.1 (pid, p) hmem
        rw [heid] at hb
        exact hb.2 hpid
      simp only [edit_project, heq]
      rw [if_neg hn30, if_neg hd150, if_neg hany]

theorem project_name_uniqueness_witness :
    Inv repoP ∧ dictGet repoP.projects 1 = some ⟨1, "P", "", []⟩ ∧
    ("P" : String).length ≤ 30 ∧ ("x" : String).length ≤ 150 ∧
    (((∃ msg, (edit_project repoP 1 "P" "x").1 = .error (.validationError msg)) ↔
      (∃ e ∈ repoP.projects, e.2.name = "P" ∧ e.2.id ≠ 1)) ∧
     ("P" = (⟨1, "P", "", []⟩ : Project).name →
      (edit_project repoP 1 "P" "x").1 =
        .ok { (⟨1, "P", "", []⟩ : Project) with name := "P", description := "x" })) :=
  ⟨by decide, by decide, by decide, by decide,
    project_name_uniqueness.2.2 repoP 1 ⟨1, "P", "", []⟩ "P" "x"
      (by decide) (by decide) (by decide) (by decide)⟩

/-- C6: for an existing project and a task in it, a successful
`change_task_status` with a valid status value replaces exactly that task by
the same task with only its status field changed (id, title, description and
deadline are carried over unchanged), keeps every other task of the project
in place and in order, and leaves every other project and both id counters
untouched. -/
theorem change_task_status_frame :
    ∀ repo pid tid st p t, Inv repo →
      dictGet repo.projects pid = some p →
      t ∈ p.tasks → t.id = tid →
      VALID_STATUSES.contains st = true →
      ∃ l₁ l₂ t₁ t₂,
        repo.projects = l₁ ++ (pid, p) :: l₂ ∧
        p.tasks = t₁ ++ t :: t₂ ∧
        change_task_status repo pid tid st =
          (.ok { t with status := st },
            ⟨l₁ ++ (pid, { p with
                tasks := t₁ ++ { t with status := st } :: t₂ }) :: l₂,
              repo.next_project_id, repo.next_task_id⟩) := by
  intro repo pid tid st p t hinv heq ht hid hst
  have hmem := mem_of_dictGet heq
  have hndt : (p.tasks.map Task.id).Nodup := project_tasks_id_nodup hinv hmem
  have htask : findTask p.tasks tid = some t := findTask_of_mem_nodup hndt ht hid
  obtain ⟨l₁, l₂, hl, hk₁, hk₂⟩ := dictGet_decomp_nodup heq (inv_keys_nodup hinv)
  obtain ⟨t₁, t₂, hts, h₁, _⟩ := findTask_decomp htask
  refine ⟨l₁, l₂, t₁, t₂, hl, hts, ?_⟩
  have harm : updateFirstTask p.tasks tid (fun u => { u with status := st }) =
      t₁ ++ { t with status := st } :: t₂ := by
    rw [hts]
    exact updateFirstTask_decomp _ h₁ hid
  have hX : dictUpdate repo.projects pid
      (fun q => { q with tasks := updateFirstTask q.tasks tid (fun u => { u with status := st }) }) =
      l₁ ++ (pid, { p with
        tasks := t₁ ++ { t with status := st } :: t₂ }) :: l₂ := by
    rw [hl, dictUpdate_decomp _ hk₁ hk₂]
    simp only [harm]
  simp only [change_task_status, heq, htask]
  rw [if_neg (by rw [hst]; decide), hX]

theorem change_task_status_frame_witness :
    Inv repoPT ∧
    dictGet repoPT.projects 1 = some ⟨1, "P", "", [⟨1, "T", "D", "todo", none⟩]⟩ ∧
    (⟨1, "T", "D", "todo", none⟩ : Task) ∈
      (⟨1, "P", "", [⟨1, "T", "D", "todo", none⟩]⟩ : Project).tasks ∧
    (⟨1, "T", "D", "todo", none⟩ : Task).id = 1 ∧
    VALID_STATUSES.contains "done" = true ∧
    (∃ l₁ l₂ t₁ t₂,
      repoPT.projects = l₁ ++ (1, ⟨1, "P", "", [⟨1, "T", "D", "todo", none⟩]⟩) :: l₂ ∧
      (⟨1, "P", "", [⟨1, "T", "D", "todo", none⟩]⟩ : Project).tasks = t₁ ++
        (⟨1, "T", "D", "todo", none⟩ : Task) :: t₂ ∧
      change_task_status repoPT 1 1 "done" =
        (.ok { (⟨1, "T", "D", "todo", none⟩ : Task) with status := "done" },
          ⟨l₁ ++ (1, { (⟨1, "P", "", [⟨1, "T", "D", "todo", none⟩]⟩ : Project) with
              tasks := t₁ ++ { (⟨1, "T", "D", "todo", none⟩ : Task) with
                status := "done" } :: t₂ }) :: l₂,
            repoPT.next_project_id, repoPT.next_task_id⟩)) :=
  ⟨by decide, by decide, by decide, by decide, by decide,
    change_task_status_frame repoPT 1 1 "done"
      ⟨1, "P", "", [⟨1, "T", "D", "todo", none⟩]⟩ ⟨1, "T", "D", "todo", none⟩
      (by decide) (by decide) (by decide) (by decide) (by decide)⟩

/-- C10: for an existing project containing a task with the given id,
`delete_task` removes exactly the first task in the project's sequence whose
id matches, preserving the relative order (and every field) of all remaining
tasks, and leaves every other project and both id counters unchanged. -/
theorem delete_task_first_match_frame :
    ∀ repo pid tid p t, Inv repo →
      dictGet repo.projects pid = some p →
      t ∈ p.tasks → t.id = tid →
      ∃ l₁ l₂ t₁ t₂,
        repo.projects = l₁ ++ (pid, p) :: l₂ ∧
        p.tasks = t₁ ++ t :: t₂ ∧ (∀ u ∈ t₁, u.id ≠ tid) ∧
        delete_task repo pid tid =
          (.ok (), ⟨l₁ ++ (pid, { p with tasks := t₁ ++ t₂ }) :: l₂,
            repo.next_project_id, repo.next_task_id⟩) := by
  intro repo pid tid p t hinv heq ht hid
  have hmem := mem_of_dictGet heq
  have hndt : (p.tasks.map Task.id).Nodup := project_tasks_id_nodup hinv hmem
  have htask : findTask p.tasks tid = some t := findTask_of_mem_nodup hndt ht hid
  obtain ⟨l₁, l₂, hl, hk₁, hk₂⟩ := dictGet_decomp_nodup heq (inv_keys_nodup hinv)
  obtain ⟨t₁, t₂, hts, h₁, _⟩ := findTask_decomp htask
  refine ⟨l₁, l₂, t₁, t₂, hl, hts, h₁, ?_⟩
  have harm : removeFirstTask p.tasks tid = t₁ ++ t₂ := by
    rw [hts]
    exact removeFirstTask_decomp h₁ hid
  have hX : dictUpdate repo.projects pid
      (fun q => { q with tasks := removeFirstTask q.tasks tid }) =
      l₁ ++ (pid, { p with tasks := t₁ ++ t₂ }) :: l₂ := by
    rw [hl, dictUpdate_decomp _ hk₁ hk₂]
    simp only [harm]
  simp only [delete_task, heq, htask]
  rw [hX]

theorem delete_task_first_match_frame_witness :
    Inv repoPT ∧
    dictGet repoPT.projects 1 = some ⟨1, "P", "", [⟨1, "T", "D", "todo", none⟩]⟩ ∧
    (⟨1, "T", "D", "todo", none⟩ : Task) ∈
      (⟨1, "P", "", [⟨1, "T", "D", "todo", none⟩]⟩ : Project).tasks ∧
    (⟨1, "T", "D", "todo", none⟩ : Task).id = 1 ∧
    (∃ l₁ l₂ t₁ t₂,
      repoPT.projects = l₁ ++ (1, ⟨1, "P", "", [⟨1, "T", "D", "todo", none⟩]⟩) :: l₂ ∧
      (⟨1, "P", "", [⟨1, "T", "D", "todo", none⟩]⟩ : Project).tasks = t₁ ++
        (⟨1, "T", "D", "todo", none⟩ : Task) :: t₂ ∧ (∀ u ∈ t₁, u.id ≠ 1) ∧
      delete_task repoPT 1 1 =
        (.ok (), ⟨l₁ ++ (1, { (⟨1, "P", "",
            [⟨1, "T", "D", "todo", none⟩]⟩ : Project) with
            tasks := t₁ ++ t₂ }) :: l₂,
          repoPT.next_project_id, repoPT.next_task_id⟩)) :=
  ⟨by decide, by decide, by decide, by decide,
    delete_task_first_match_frame repoPT 1 1
      ⟨1, "P", "", [⟨1, "T", "D", "todo", none⟩]⟩ ⟨1, "T", "D", "todo", none⟩
      (by decide) (by decide) (by decide) (by decide)⟩

/-- C7: concretely, starting from a state whose project 1 has no tasks,
`add_task 1 "T" "D" "doing" "2025-01-01"` succeeds and `list_tasks 1` then
returns exactly one task whose status is `"doing"` and whose deadline is
January 1, 2025; and in general, once the project exists and the count,
length and status checks pass, `add_task` fails exactly when the deadline
argument is a non-empty string that does not parse as `YYYY-MM-DD`. -/
theorem add_task_roundtrip_and_deadline_parse :
    (∃ t repo',
      add_task 200 repoP 1 "T" "D" "doing" (some "2025-01-01") = (.ok t, repo') ∧
      t.status = "doing" ∧ t.deadline = some ⟨2025, 1, 1⟩ ∧
      list_tasks repo' 1 = .ok [t]) ∧
    (∀ maxT repo pid ti de st dl p, dictGet repo.projects pid = some p →
      p.tasks.length < maxT → ti.length ≤ MAX_TASK_TITLE →
      de.length ≤ MAX_TASK_DESC → VALID_STATUSES.contains st = true →
      ((∃ e, (add_task maxT repo pid ti de st dl).1 = .error e) ↔
        ∃ d, dl = some d ∧ d ≠ "" ∧ parseDate d = none)) := by
  constructor
  · exact ⟨⟨1, "T", "D", "doing", some ⟨2025, 1, 1⟩⟩,
      ⟨[(1, ⟨1, "P", "", [⟨1, "T", "D", "doing", some ⟨2025, 1, 1⟩⟩]⟩)], 2, 2⟩,
      rfl, rfl, rfl, rfl⟩
  · intro maxT repo pid ti de st dl p heq hcnt hti hde hst
    simp only [add_task, heq]
    rw [if_neg (by omega), if_neg (by omega), if_neg (by omega),
      if_neg (by rw [hst]; decide)]
    cases dl with
    | none => simp [computeDeadline]
    | some d =>
      by_cases hd : d = ""
      · subst hd
        simp [computeDeadline]
      · cases hpd : parseDate d with
        | some dt => simp [computeDeadline, hd, hpd]
        | none => simp [computeDeadline, hd, hpd]

theorem add_task_roundtrip_and_deadline_parse_witness :
    dictGet repoP.projects 1 = some ⟨1, "P", "", []⟩ ∧
    (⟨1, "P", "", []⟩ : Project).tasks.length < 200 ∧
    ("T" : String).length ≤ MAX_TASK_TITLE ∧
    ("D" : String).length ≤ MAX_TASK_DESC ∧
    VALID_STATUSES.contains "doing" = true ∧
    ((∃ e, (add_task 200 repoP 1 "T" "D" "doing" (some "2025-13-01")).1 = .error e) ↔
      ∃ d, (some "2025-13-01" : Option String) = some d ∧ d ≠ "" ∧
        parseDate d = none) :=
  ⟨by decide, by decide, by decide, by decide, by decide,
    add_task_roundtrip_and_deadline_parse.2 200 repoP 1 "T" "D" "doing"
      (some "2025-13-01") ⟨1, "P", "", []⟩
      (by decide) (by decide) (by decide) (by decide) (by decide)⟩

/-- C8: every failure of every fallible repository operation is a
`ValidationError` from the declared taxonomy — no operation ever surfaces a
`ProjectNotFoundError`, `TaskNotFoundError`, `LimitExceededError` or anything
else (`list_projects` is total and cannot fail at all, so it needs no
conjunct). -/
theorem errors_are_validation_errors :
    (∀ maxP repo n d e, (add_project maxP repo n d).1 = .error e →
      ∃ msg, e = TodoError.validationError msg) ∧
    (∀ repo pid n d e, (edit_project repo pid n d).1 = .error e →
      ∃ msg, e = TodoError.validationError msg) ∧
    (∀ repo pid e, (delete_project repo pid).1 = .error e →
      ∃ msg, e = TodoError.validationError msg) ∧
    (∀ maxT repo pid ti de st dl e,
      (add_task maxT repo pid ti de st dl).1 = .error e →
      ∃ msg, e = TodoError.validationError msg) ∧
    (∀ repo pid tid ti de st dl e,
      (edit_task repo pid tid ti de st dl).1 = .error e →
      ∃ msg, e = TodoError.validationError msg) ∧
    (∀ repo pid tid e, (delete_task repo pid tid).1 = .error e →
      ∃ msg, e = TodoError.validationError msg) ∧
    (∀ repo pid tid st e, (change_task_status repo pid tid st).1 = .error e →
      ∃ msg, e = TodoError.validationError msg) ∧
    (∀ repo pid e, list_tasks repo pid = .error e →
      ∃ msg, e = TodoError.validationError msg) := by
  refine ⟨?_, ?_, ?_, ?_, ?_, ?_, ?_, ?_⟩
  · intro maxP repo n d e h
    rw [add_project] at h
    split_ifs at h
    all_goals
      first
      | exact ⟨_, (Except.error.inj h).symm⟩
      | exact Except.noConfusion h
  · intro repo pid n d e h
    rw [edit_project] at h
    split at h
    · exact ⟨_, (Except.error.inj h).symm⟩
    split_ifs at h
    all_goals
      first
      | exact ⟨_, (Except.error.inj h).symm⟩
      | exact Except.noConfusion h
  · intro repo pid e h
    rw [delete_project] at h
    split_ifs at h
    all_goals
      first
      | exact ⟨_, (Except.error.inj h).symm⟩
      | exact Except.noConfusion h
  · intro maxT repo pid ti de st dl e h
    rw [add_task] at h
    split at h
    · exact ⟨_, (Except.error.inj h).symm⟩
    split_ifs at h
    · exact ⟨_, (Except.error.inj h).symm⟩
    · exact ⟨_, (Except.error.inj h).symm⟩
    · exact ⟨_, (Except.error.inj h).symm⟩
    · exact ⟨_, (Except.error.inj h).symm⟩
    split at h
    next e' hdl =>
      exact ⟨_, ((Except.error.inj h).symm).trans (computeDeadline_error hdl)⟩
    next dt hdl => exact Except.noConfusion h
  · intro repo pid tid ti de st dl e h
    rw [edit_task] at h
    split at h
    · exact ⟨_, (Except.error.inj h).symm⟩
    split at h
    · exact ⟨_, (Except.error.inj h).symm⟩
    split_ifs at h
    · exact ⟨_, (Except.error.inj h).symm⟩
    · exact ⟨_, (Except.error.inj h).symm⟩
    · exact ⟨_, (Except.error.inj h).symm⟩
    split at h
    next e' hdl =>
      exact ⟨_, ((Except.error.inj h).symm).trans (computeDeadline_error hdl)⟩
    next dt hdl => exact Except.noConfusion h
  · intro repo pid tid e h
    rw [delete_task] at h
    split at h
    · exact ⟨_, (Except.error.inj h).symm⟩
    split at h
    · exact ⟨_, (Except.error.inj h).symm⟩
    · exact Except.noConfusion h
  · intro repo pid tid st e h
    rw [change_task_status] at h
    split at h
    · exact ⟨_, (Except.error.inj h).symm⟩
    split at h
    · exact ⟨_, (Except.error.inj h).symm⟩
    split_ifs at h
    all_goals
      first
      | exact ⟨_, (Except.error.inj h).symm⟩
      | exact Except.noConfusion h
  · intro repo pid e h
    rw [list_tasks] at h
    split at h
    · exact ⟨_, (Except.error.inj h).symm⟩
    · exact Except.noConfusion h

theorem errors_are_validation_errors_witness :
    (delete_project repoP 2).1 = .error (.validationError "Project not found.") ∧
    ∃ msg, TodoError.validationError "Project not found." =
      TodoError.validationError msg :=
  ⟨rfl, errors_are_validation_errors.2.2.1 repoP 2
    (.validationError "Project not found.") rfl⟩

end TodoList
